import Mathlib

/-
Verification of the agents_manager orchestration layer.

The development shallowly embeds `src/agents_manager/AgentManager.py`,
`src/agents_manager/Agent.py` and the adapter constants of
`src/agents_manager/models/OpenAi.py`.  The backend adapter's network
calls are represented by an oracle (`Env.gen` / `Env.genStream`), and
`json.loads` by the oracle `Env.decode`; both are universally
quantified in the theorems.  The message list that `run_agent` builds
is threaded as a value and persisted with `set_messages` at the end of
the tool pass, which reproduces the final histories of the source
(which appends to a shared list in place before re-setting it).
-/

namespace AgentsManager

/-- The `function` field of a backend tool call: serialized function name and
argument payload (`tool_call.function.name` / `.arguments`). -/
structure ToolCallFn where
  name : String
  arguments : String
deriving DecidableEq, Repr

/-- A backend-assigned tool call record (`tool_call.id`, `tool_call.function`). -/
structure ToolCall where
  id : String
  function : ToolCallFn
deriving DecidableEq, Repr

/-- A message dictionary as built by `AgentManager` / `Agent`:
the seeded assistant message, the reconstructed assistant message carrying
`tool_calls`, a user message, or a tool message tagged with `tool_call_id`. -/
inductive Msg where
  | assistant (content : String)
  | assistantCalls (content : String) (tool_calls : List ToolCall)
  | user (content : String)
  | tool (tool_call_id : String) (content : String)
deriving DecidableEq, Repr

/-- The `message` object of a response choice, as accessed by the delegation
branch of `run_agent`: `hasContent` models `hasattr(message, "content")`,
`strRepr` models `str(message)`. -/
structure ChoiceMsg where
  hasContent : Bool
  content : String
  strRepr : String
deriving DecidableEq, Repr

/-- One entry of `response.choices`. -/
structure Choice where
  message : ChoiceMsg
deriving DecidableEq, Repr

/-- The value returned by the adapter's generation, as accessed by
`run_agent`: `tool_calls` (an absent or falsy attribute is the empty list),
`content`, and `choices` (read only on nested delegation responses). -/
structure GenResponse where
  tool_calls : List ToolCall
  content : Option String
  choices : List Choice
deriving DecidableEq, Repr

mutual
/-- The immutable part of an `Agent`: `name`, `instruction` and `tools`
(`Agent.__init__`).  The mutable adapter state lives in `ModelSt`. -/
inductive AgentV : Type where
  | mk (name : String) (instruction : String) (tools : List Tool) : AgentV

/-- A callable tool: its `__name__` and the call `tool(**arguments)`. -/
inductive Tool : Type where
  | mk (name : String) (impl : List (String × String) → ToolRes) : Tool

/-- Result of invoking a tool: an `Agent` instance triggers delegation,
anything else is coerced with `str(...)` (we carry the coerced text). -/
inductive ToolRes : Type where
  | scalar (s : String) : ToolRes
  | agentRes (a : AgentV) : ToolRes
end

def AgentV.name : AgentV → String
  | .mk n _ _ => n

def AgentV.instruction : AgentV → String
  | .mk _ i _ => i

def AgentV.tools : AgentV → List Tool
  | .mk _ _ t => t

def Tool.name : Tool → String
  | .mk n _ => n

def Tool.impl : Tool → (List (String × String) → ToolRes)
  | .mk _ f => f

/-- JSON-like values, used for the adapter's tool-format template. -/
inductive Json where
  | str (s : String)
  | bool (b : Bool)
  | arr (xs : List Json)
  | obj (fields : List (String × Json))

/-- The tool-description template of `OpenAi.get_tool_format`. -/
def openAiToolFormat : Json :=
  .obj [("type", .str "function"),
        ("function", .obj
          [("name", .str "{name}"),
           ("description", .str "{description}"),
           ("parameters", .obj
             [("type", .str "object"),
              ("properties", .str "{parameters}"),
              ("required", .str "{required}"),
              ("additionalProperties", .bool false)]),
           ("strict", .bool true)])]

/-- Modelled from the spec: the serialized form of one tool, produced by
`function_to_json` (`agents_manager/utils.py`, not under `src/`): the tool's
derived calling signature serialized through the adapter's tool-description
template. We record the derived name together with the template used. -/
structure FormattedTool where
  toolName : String
  template : Json

/-- Modelled from the spec: `function_to_json` derives the tool's calling
signature and serializes it through the adapter's template. -/
def function_to_json (t : Tool) (fmt : Json) : FormattedTool :=
  ⟨t.name, fmt⟩

/-- Modelled from the spec: the adapter state owned by one agent
(`Model`, `agents_manager/Model.py`, not under `src/`): a history that is
absent until `set_messages` is first called, and the auxiliary options
stored by `set_kwargs` under key `tools`. -/
structure ModelSt where
  messages : Option (List Msg)
  kwargsTools : Option (List FormattedTool)

/-- A registered agent: its immutable part plus its adapter state. -/
structure AgentSt where
  spec : AgentV
  model : ModelSt

/-- The `AgentManager`'s state: the ordered list of registered agents. -/
structure ManagerSt where
  agents : List AgentSt

/-- One generation call issued to a backend: the registry index of the agent
whose adapter was called, and the message history it was called with. -/
structure GenCall where
  agentIdx : Nat
  messages : List Msg
deriving DecidableEq, Repr

/-- The oracle for everything outside the repository: the adapter's
generation calls and `json.loads` on argument payloads. -/
structure Env where
  gen : Nat → List Msg → GenResponse
  genStream : Nat → List Msg → List String
  decode : String → Option (List (String × String))

/-- Errors raised by the orchestrator and by `Agent.get_response`:
a missing agent, a `json.loads` failure, the messages-not-set precondition,
a missing `choices[0]` on a nested response, and fuel exhaustion (standing
for the unbounded recursion of cyclic delegation). -/
inductive RunErr where
  | noAgentFound (name : String)
  | jsonDecodeError (payload : String)
  | messagesNotSet
  | noChoices
  | outOfFuel
deriving DecidableEq, Repr

/-- The error text attached to each raised error; `noAgentFound` and
`messagesNotSet` reproduce the `ValueError` strings of the source. -/
def RunErr.message : RunErr → String
  | .noAgentFound n => "No agent found with name: " ++ n
  | .jsonDecodeError s => "Failed to deserialize tool arguments: " ++ s
  | .messagesNotSet => "Messages must be set before generating a response"
  | .noChoices => "nested response has no choices"
  | .outOfFuel => "delegation recursion exhausted"

/-- The observable outcome of a completed `run_agent`: the returned
response, the manager state, and the trace of backend generation calls. -/
structure RunOut where
  response : GenResponse
  manager : ManagerSt
  log : List GenCall

/-- `AgentManager.add_agent`: append the agent, seed its history with the
single assistant-role instruction message (`agent.set_messages`), and
serialize its tool set into the adapter's options (`agent.set_tools`). -/
def add_agent (m : ManagerSt) (a : AgentV) : ManagerSt :=
  ⟨m.agents ++ [⟨a, ⟨some [Msg.assistant a.instruction],
    some (a.tools.map (fun t => function_to_json t openAiToolFormat))⟩⟩]⟩

/-- Index of the first agent with the given name (`AgentManager.get_agent`
returns the first match of the linear scan). -/
def findAgentIdx : List AgentSt → String → Option Nat
  | [], _ => none
  | a :: rest, nm =>
    if a.spec.name == nm then some 0 else (findAgentIdx rest nm).map (· + 1)

def getAgentIdx (m : ManagerSt) (nm : String) : Option Nat :=
  findAgentIdx m.agents nm

/-- Positional lookup in the registry. -/
def getAg : List AgentSt → Nat → Option AgentSt
  | [], _ => none
  | a :: _, 0 => some a
  | _ :: rest, n + 1 => getAg rest n

/-- Replace the history of the agent at position `i` (`agent.set_messages`). -/
def setMsgsList : List AgentSt → Nat → List Msg → List AgentSt
  | [], _, _ => []
  | a :: rest, 0, msgs => { a with model := { a.model with messages := some msgs } } :: rest
  | a :: rest, n + 1, msgs => a :: setMsgsList rest n msgs

def setAgentMessages (m : ManagerSt) (i : Nat) (msgs : List Msg) : ManagerSt :=
  ⟨setMsgsList m.agents i msgs⟩

/-- `agent.get_messages()` for the agent at position `i`. -/
def getAgentMessages (m : ManagerSt) (i : Nat) : Option (List Msg) :=
  (getAg m.agents i).bind (fun a => a.model.messages)

/-- The user-input step of `run_agent` / `run_agent_stream`:
`if user_input:` (Python truthiness, so `None` and `""` are skipped)
`agent.set_messages((agent.get_messages() or []) + [user message])`. -/
def appendUserInput : ManagerSt → Nat → Option String → ManagerSt
  | m, _, none => m
  | m, i, some s =>
    if s.isEmpty then m
    else setAgentMessages m i (((getAgentMessages m i).getD []) ++ [Msg.user s])

/-- `Agent.get_response`: raise unless the adapter's history has been set,
then delegate to the adapter's generation. -/
def get_response (env : Env) (i : Nat) (mo : ModelSt) : Except RunErr GenResponse :=
  match mo.messages with
  | none => .error .messagesNotSet
  | some msgs => .ok (env.gen i msgs)

/-- `Agent.get_response_stream`: same precondition, streaming generation. -/
def get_response_stream (env : Env) (i : Nat) (mo : ModelSt) : Except RunErr (List String) :=
  match mo.messages with
  | none => .error .messagesNotSet
  | some msgs => .ok (env.genStream i msgs)

/-- The text the delegation branch extracts from a nested response's first
choice: `message.content if hasattr(message, "content") else str(message)`. -/
def choiceText (cm : ChoiceMsg) : String :=
  if cm.hasContent then cm.content else cm.strRepr

/-- The inner loop of `run_agent`'s tool pass: `for tool in tools:` with no
break, so every tool whose `__name__` equals the call's function name is
invoked.  A scalar result appends a tool message directly; an `Agent` result
is registered and run recursively (`runA`) on the original user input, and
the nested response's first-choice text is appended instead. -/
def processTools (env : Env)
    (runA : ManagerSt → String → Option String → Except RunErr RunOut)
    (ui : Option String) (c : ToolCall) (args : List (String × String)) :
    List Tool → List Msg → ManagerSt → List GenCall →
    Except RunErr (List Msg × ManagerSt × List GenCall)
  | [], cur, m, log => .ok (cur, m, log)
  | t :: rest, cur, m, log =>
    if t.name == c.function.name then
      match t.impl args with
      | .scalar s =>
        processTools env runA ui c args rest (cur ++ [Msg.tool c.id s]) m log
      | .agentRes a =>
        match runA (add_agent m a) a.name ui with
        | .error e => .error e
        | .ok out =>
          match out.response.choices with
          | [] => .error .noChoices
          | ch :: _ =>
            processTools env runA ui c args rest
              (cur ++ [Msg.tool c.id (choiceText ch.message)]) out.manager
              (log ++ out.log)
    else
      processTools env runA ui c args rest cur m log

/-- The outer loop of `run_agent`'s tool pass: for each tool call in backend
order, `json.loads` its argument payload (raising on failure), then scan the
agent's tool set with `processTools`. -/
def processCalls (env : Env)
    (runA : ManagerSt → String → Option String → Except RunErr RunOut)
    (ui : Option String) (tools : List Tool) :
    List ToolCall → List Msg → ManagerSt → List GenCall →
    Except RunErr (List Msg × ManagerSt × List GenCall)
  | [], cur, m, log => .ok (cur, m, log)
  | c :: rest, cur, m, log =>
    match env.decode c.function.arguments with
    | none => .error (.jsonDecodeError c.function.arguments)
    | some args =>
      match processTools env runA ui c args tools cur m log with
      | .error e => .error e
      | .ok (cur', m', log') => processCalls env runA ui tools rest cur' m' log'

/-- The tail of `run_agent`'s tool branch: persist the accumulated history
on the agent (`agent.set_messages(current_messages)`) and generate again
through `get_response` (guard inlined); this second response is the turn's
return value. -/
def finishToolPass (env : Env) (i : Nat) (m₂ : ManagerSt) (cur' : List Msg)
    (log₂ : List GenCall) : Except RunErr RunOut :=
  match getAg (setAgentMessages m₂ i cur').agents i with
  | none => .error .messagesNotSet
  | some ag₂ =>
    match ag₂.model.messages with
    | none => .error .messagesNotSet
    | some msgs₂ =>
      .ok ⟨env.gen i msgs₂, setAgentMessages m₂ i cur', log₂ ++ [⟨i, msgs₂⟩]⟩

/-- One unfolding of `AgentManager.run_agent`, with `runA` standing for the
recursive call used by delegation: resolve the agent (first match by name),
append the user input if truthy, call `get_response` (its guard inlined so
the generation's input is visible), and either return the response unchanged
(no tool calls) or append the reconstructed assistant message, run the tool
pass, persist the history, and generate again. -/
def runAgentStep (env : Env)
    (runA : ManagerSt → String → Option String → Except RunErr RunOut)
    (m : ManagerSt) (name : String) (ui : Option String) :
    Except RunErr RunOut :=
  match getAgentIdx m name with
  | none => .error (.noAgentFound name)
  | some i =>
    match getAg (appendUserInput m i ui).agents i with
    | none => .error (.noAgentFound name)
    | some ag =>
      match ag.model.messages with
      | none => .error .messagesNotSet
      | some msgs =>
        if (env.gen i msgs).tool_calls.isEmpty then
          .ok ⟨env.gen i msgs, appendUserInput m i ui, [⟨i, msgs⟩]⟩
        else
          match processCalls env runA ui ag.spec.tools (env.gen i msgs).tool_calls
              (msgs ++ [Msg.assistantCalls ((env.gen i msgs).content.getD "")
                (env.gen i msgs).tool_calls])
              (appendUserInput m i ui) [⟨i, msgs⟩] with
          | .error e => .error e
          | .ok (cur', m₂, log₂) => finishToolPass env i m₂ cur' log₂

/-- `AgentManager.run_agent`, with fuel bounding the delegation recursion
(the source has no guard and would recurse until the stack overflows on a
cyclic delegation chain). -/
def run_agent (env : Env) (fuel : Nat) :
    ManagerSt → String → Option String → Except RunErr RunOut :=
  match fuel with
  | 0 => fun _ _ _ => .error .outOfFuel
  | fuel + 1 => runAgentStep env (run_agent env fuel)

/-- `AgentManager.run_agent_stream`: resolve, append truthy user input, and
return the adapter's streaming handle; no tool-call interception. -/
def run_agent_stream (env : Env) (m : ManagerSt) (name : String)
    (ui : Option String) : Except RunErr (List String × ManagerSt) :=
  match getAgentIdx m name with
  | none => .error (.noAgentFound name)
  | some i =>
    let m₁ := appendUserInput m i ui
    match getAg m₁.agents i with
    | none => .error (.noAgentFound name)
    | some ag =>
      match get_response_stream env i ag.model with
      | .error e => .error e
      | .ok st => .ok (st, m₁)

/-- Final history of the agent at position `i` after a completed run. -/
def runMsgs (x : Except RunErr RunOut) (i : Nat) : Option (List Msg) :=
  match x with
  | .ok out => getAgentMessages out.manager i
  | .error _ => none

/-- Registry indices of the generation calls of a completed run. -/
def runLogIdx (x : Except RunErr RunOut) : List Nat :=
  match x with
  | .ok out => out.log.map (fun g => g.agentIdx)
  | .error _ => []

/-- Whether a run completed without raising. -/
def runOk (x : Except RunErr RunOut) : Bool :=
  match x with
  | .ok _ => true
  | .error _ => false

/-- The `tool_call_id` of a tool-role message, `none` for other roles. -/
def msgToolId : Msg → Option String
  | .tool id _ => some id
  | _ => none

/-- The coerced text of a scalar tool result. -/
def scalarStr : ToolRes → String
  | .scalar s => s
  | .agentRes _ => ""

/-- Every registered agent's history has been set. -/
def allSeeded (m : ManagerSt) : Prop :=
  ∀ ag ∈ m.agents, ag.model.messages.isSome

/-- The registry only evolves by appending agents and replacing histories:
every position that held an agent still holds an agent with the same
immutable part. -/
def keepsAgents (m m' : ManagerSt) : Prop :=
  ∀ i a, getAg m.agents i = some a →
    ∃ a', getAg m'.agents i = some a' ∧ a'.spec = a.spec

/-- Names of the registered agents after a completed run. -/
def runAgentNames (x : Except RunErr RunOut) : List String :=
  match x with
  | .ok out => out.manager.agents.map (fun a => a.spec.name)
  | .error _ => []

/- Concrete material used by counterexamples and witnesses. -/

def tcA : ToolCall := ⟨"call-1", ⟨"lookup", "payload"⟩⟩

def cexAgentA : AgentV := .mk "a" "inst" []

def cexMgrA : ManagerSt := add_agent ⟨[]⟩ cexAgentA

/-- A backend that answers the seeded one-message history with one tool call
and every later history with a plain response. -/
def cexEnvA : Env :=
  ⟨fun _ msgs => if msgs.length == 1 then ⟨[tcA], some "", []⟩ else ⟨[], some "done", []⟩,
   fun _ _ => [],
   fun _ => some []⟩

def tcF : ToolCall := ⟨"call-9", ⟨"f", "payload"⟩⟩

/-- An agent whose tool set holds two distinct tools that share the name
`f` (the uniqueness convention of the spec is deliberately broken). -/
def cexAgentB : AgentV :=
  .mk "b" "insb" [.mk "f" (fun _ => .scalar "one"), .mk "f" (fun _ => .scalar "two")]

def cexMgrB : ManagerSt := add_agent ⟨[]⟩ cexAgentB

def cexEnvB : Env :=
  ⟨fun _ msgs => if msgs.length == 1 then ⟨[tcF], some "", []⟩ else ⟨[], some "done", []⟩,
   fun _ _ => [],
   fun _ => some []⟩

/-- A backend that never returns tool calls. -/
def cexEnvC : Env := ⟨fun _ _ => ⟨[], some "r", []⟩, fun _ _ => [], fun _ => some []⟩

def tcS : ToolCall := ⟨"call-2", ⟨"spawn", "payload"⟩⟩

def newDup : AgentV := .mk "dup" "new-inst" []

/-- An agent whose tool returns a fresh agent named `dup`, shadowed by an
already registered agent of the same name. -/
def mainAgent : AgentV := .mk "main" "main-inst" [.mk "spawn" (fun _ => .agentRes newDup)]

def oldDup : AgentV := .mk "dup" "old-inst" []

def cexMgr2 : ManagerSt := add_agent (add_agent ⟨[]⟩ oldDup) mainAgent

def cexEnv2 : Env :=
  ⟨fun i msgs =>
      if i == 0 then ⟨[], some "x", [⟨⟨true, "from-old", "r"⟩⟩]⟩
      else if msgs.length == 2 then ⟨[tcS], some "", []⟩
      else ⟨[], some "final", []⟩,
   fun _ _ => [],
   fun _ => some []⟩

/-- An agent with exactly one tool, matching the name of `tcA`. -/
def agentW1 : AgentV := .mk "w" "wi" [.mk "lookup" (fun _ => .scalar "res")]

def mgrW1 : ManagerSt := add_agent ⟨[]⟩ agentW1

def envW1 : Env :=
  ⟨fun _ msgs => if msgs.length == 1 then ⟨[tcA], some "", []⟩ else ⟨[], some "done", []⟩,
   fun _ _ => [],
   fun _ => some []⟩

/-- A backend whose argument payloads never deserialize. -/
def envW3 : Env :=
  ⟨fun _ msgs => if msgs.length == 1 then ⟨[tcA], some "", []⟩ else ⟨[], some "done", []⟩,
   fun _ _ => [],
   fun _ => none⟩

def xAgentW : AgentV := .mk "x" "xi" []

def tcW : ToolCall := ⟨"call-7", ⟨"spawn", "payload"⟩⟩

/-- A host agent whose only tool returns the fresh agent `xAgentW`. -/
def hostW : AgentV := .mk "h" "hi" [.mk "spawn" (fun _ => .agentRes xAgentW)]

def mgrW : ManagerSt := add_agent ⟨[]⟩ hostW

def envW : Env :=
  ⟨fun i msgs =>
      if i == 0 then
        (if msgs.length == 2 then ⟨[tcW], some "", []⟩ else ⟨[], some "final", []⟩)
      else ⟨[], some "n", [⟨⟨true, "nested", "r"⟩⟩]⟩,
   fun _ _ => [],
   fun _ => some []⟩

end AgentsManager

namespace AgentsManager

/-- C5: `add_agent` seeds the agent's history with exactly one
assistant-role message equal to its instruction and stores the serialized
tool set (every tool, in order, through the adapter's template) on the
adapter's options, at registration time. -/
theorem c5_registration_seeds_history_and_tools (m : ManagerSt) (a : AgentV) :
    (add_agent m a).agents = m.agents ++
      [⟨a, ⟨some [Msg.assistant a.instruction],
            some (a.tools.map (fun t => function_to_json t openAiToolFormat))⟩⟩] := rfl

/-- C7: running an unregistered name fails, in both `run_agent` and
`run_agent_stream`, with a not-found error whose message names the
requested identifier; this holds for every backend oracle, so no
generation is attempted. -/
theorem c7_not_found (env : Env) (fuel : Nat) (m : ManagerSt) (name : String)
    (ui : Option String) (h : getAgentIdx m name = none) :
    run_agent env (fuel + 1) m name ui = .error (.noAgentFound name) ∧
    run_agent_stream env m name ui = .error (.noAgentFound name) ∧
    RunErr.message (.noAgentFound name) = "No agent found with name: " ++ name := by
  refine ⟨?_, ?_, rfl⟩
  · show runAgentStep env (run_agent env fuel) m name ui = _
    unfold runAgentStep
    rw [h]
  · unfold run_agent_stream
    rw [h]

/-- Witness for C7 at the spec's own example: `run("ghost")` on an empty
registry. -/
theorem c7_witness :
    getAgentIdx ⟨[]⟩ "ghost" = none ∧
    run_agent cexEnvC 1 ⟨[]⟩ "ghost" none = .error (.noAgentFound "ghost") ∧
    run_agent_stream cexEnvC ⟨[]⟩ "ghost" none = .error (.noAgentFound "ghost") ∧
    RunErr.message (.noAgentFound "ghost") = "No agent found with name: " ++ "ghost" :=
  ⟨rfl, (c7_not_found cexEnvC 0 ⟨[]⟩ "ghost" none rfl).1,
    (c7_not_found cexEnvC 0 ⟨[]⟩ "ghost" none rfl).2.1,
    (c7_not_found cexEnvC 0 ⟨[]⟩ "ghost" none rfl).2.2⟩

/-- C8: `get_response` and `get_response_stream` fail with the
messages-not-set precondition error when the history has never been set —
for every backend oracle, so no backend is contacted — and otherwise
delegate to the adapter's generation and return its result. -/
theorem c8_get_response_precondition :
    (∀ (env : Env) (i : Nat) (kw : Option (List FormattedTool)),
      get_response env i ⟨none, kw⟩ = .error .messagesNotSet) ∧
    (∀ (env : Env) (i : Nat) (kw : Option (List FormattedTool)),
      get_response_stream env i ⟨none, kw⟩ = .error .messagesNotSet) ∧
    (∀ (env : Env) (i : Nat) (mo : ModelSt) (msgs : List Msg),
      mo.messages = some msgs → get_response env i mo = .ok (env.gen i msgs)) ∧
    (∀ (env : Env) (i : Nat) (mo : ModelSt) (msgs : List Msg),
      mo.messages = some msgs →
        get_response_stream env i mo = .ok (env.genStream i msgs)) := by
  refine ⟨fun env i kw => rfl, fun env i kw => rfl, ?_, ?_⟩
  · intro env i mo msgs h
    unfold get_response
    rw [h]
  · intro env i mo msgs h
    unfold get_response_stream
    rw [h]

/-- Witness for C8: a fresh adapter state errors, a set history delegates. -/
theorem c8_witness :
    get_response cexEnvC 0 ⟨none, none⟩ = .error .messagesNotSet ∧
    get_response_stream cexEnvC 0 ⟨none, none⟩ = .error .messagesNotSet ∧
    get_response cexEnvC 0 ⟨some [Msg.user "q"], none⟩ = .ok (cexEnvC.gen 0 [Msg.user "q"]) ∧
    get_response_stream cexEnvC 0 ⟨some [Msg.user "q"], none⟩ =
      .ok (cexEnvC.genStream 0 [Msg.user "q"]) :=
  ⟨c8_get_response_precondition.1 cexEnvC 0 none,
   c8_get_response_precondition.2.1 cexEnvC 0 none,
   c8_get_response_precondition.2.2.1 cexEnvC 0 ⟨some [Msg.user "q"], none⟩ [Msg.user "q"] rfl,
   c8_get_response_precondition.2.2.2 cexEnvC 0 ⟨some [Msg.user "q"], none⟩ [Msg.user "q"] rfl⟩

/-- C1 fails as stated: the first response carries one tool call, but its
name matches no tool in the agent's (empty) tool set, so the call is
silently skipped and zero tool-role messages are appended. -/
theorem c1_counterexample :
    (cexEnvA.gen 0 [Msg.assistant "inst"]).tool_calls.length = 1 ∧
    runMsgs (run_agent cexEnvA 3 cexMgrA "a" none) 0 =
      some [Msg.assistant "inst", Msg.assistantCalls "" [tcA]] ∧
    [Msg.assistant "inst", Msg.assistantCalls "" [tcA]].filterMap msgToolId = [] :=
  ⟨rfl, rfl, rfl⟩

/-- C3 fails in its no-matching-tool half: the dispatched call's function
name `lookup` matches no tool (the tool set is empty), yet `run_agent`
completes without raising instead of propagating an error. -/
theorem c3_counterexample :
    (cexEnvA.gen 0 [Msg.assistant "inst"]).tool_calls = [tcA] ∧
    tcA.function.name = "lookup" ∧
    (getAg cexMgrA.agents 0).map (fun ag => ag.spec.tools.length) = some 0 ∧
    runOk (run_agent cexEnvA 3 cexMgrA "a" none) = true :=
  ⟨rfl, rfl, rfl, rfl⟩

/-- C4 fails as stated: two tools share the name `f`; the single call with
function name `f` invokes both (the scan has no early exit), appending two
tool-role messages, not exactly one. -/
theorem c4_counterexample :
    (getAg cexMgrB.agents 0).map (fun ag => ag.spec.tools.map Tool.name) = some ["f", "f"] ∧
    (cexEnvB.gen 0 [Msg.assistant "insb"]).tool_calls = [tcF] ∧
    runMsgs (run_agent cexEnvB 3 cexMgrB "b" none) 0 =
      some [Msg.assistant "insb", Msg.assistantCalls "" [tcF],
        Msg.tool "call-9" "one", Msg.tool "call-9" "two"] :=
  ⟨rfl, rfl, rfl⟩

/-- C9 fails as stated: the input argument is provided but empty, and the
Python truthiness test skips the append, so no user-role message is added. -/
theorem c9_counterexample :
    runMsgs (run_agent cexEnvC 3 cexMgrA "a" (some "")) 0 = some [Msg.assistant "inst"] := rfl

/-- C2 fails as stated: the tool of `main` returns a fresh agent named
`dup`, shadowed by an already registered agent of that name.  The fresh
agent is appended at index 2, but the recursive run resolves the name to
index 0, so the generation-call trace is `[1, 0, 1]` — the returned agent
never receives a generation call, and the tool-role content comes from the
old agent's backend. -/
theorem c2_counterexample :
    runAgentNames (run_agent cexEnv2 5 cexMgr2 "main" (some "hi")) = ["dup", "main", "dup"] ∧
    runLogIdx (run_agent cexEnv2 5 cexMgr2 "main" (some "hi")) = [1, 0, 1] ∧
    (2 ∈ runLogIdx (run_agent cexEnv2 5 cexMgr2 "main" (some "hi")) → False) ∧
    runMsgs (run_agent cexEnv2 5 cexMgr2 "main" (some "hi")) 1 =
      some [Msg.assistant "main-inst", Msg.user "hi",
        Msg.assistantCalls "" [tcS], Msg.tool "call-2" "from-old"] := by
  refine ⟨rfl, rfl, ?_, rfl⟩
  decide

/-- C6: a response without tool calls is returned unchanged, and the
manager state after the run is exactly the state after the initial
user-input append. -/
theorem c6_no_tool_calls_identity (env : Env) (fuel : Nat) (m : ManagerSt) (name : String)
    (ui : Option String) (i : Nat) (ag : AgentSt) (msgs : List Msg)
    (h1 : getAgentIdx m name = some i)
    (h2 : getAg (appendUserInput m i ui).agents i = some ag)
    (h3 : ag.model.messages = some msgs)
    (h4 : (env.gen i msgs).tool_calls = []) :
    run_agent env (fuel + 1) m name ui =
      .ok ⟨env.gen i msgs, appendUserInput m i ui, [⟨i, msgs⟩]⟩ := by
  show runAgentStep env (run_agent env fuel) m name ui = _
  unfold runAgentStep
  rw [h1]
  simp only [h2, h3, h4, List.isEmpty_nil]
  simp

/-- Witness for C6 on a registered agent and a tool-free backend. -/
theorem c6_witness :
    getAgentIdx cexMgrA "a" = some 0 ∧
    run_agent cexEnvC 1 cexMgrA "a" none =
      .ok ⟨cexEnvC.gen 0 [Msg.assistant "inst"], appendUserInput cexMgrA 0 none,
        [⟨0, [Msg.assistant "inst"]⟩]⟩ :=
  ⟨rfl, c6_no_tool_calls_identity cexEnvC 0 cexMgrA "a" none 0
    ⟨cexAgentA, ⟨some [Msg.assistant "inst"], some []⟩⟩ [Msg.assistant "inst"] rfl rfl rfl rfl⟩

/- Registry lemmas. -/

lemma run_agent_succ (env : Env) (fuel : Nat) :
    run_agent env (fuel + 1) = runAgentStep env (run_agent env fuel) := rfl

lemma findAgentIdx_lt {l : List AgentSt} {nm : String} {i : Nat}
    (h : findAgentIdx l nm = some i) : i < l.length := by
  induction l generalizing i with
  | nil => simp [findAgentIdx] at h
  | cons a rest ih =>
    unfold findAgentIdx at h
    by_cases hc : (a.spec.name == nm) = true
    · rw [if_pos hc] at h
      cases h
      simp
    · rw [if_neg hc] at h
      cases hr : findAgentIdx rest nm with
      | none => rw [hr] at h; simp at h
      | some j =>
        rw [hr] at h
        simp only [Option.map_some'] at h
        cases h
        have := ih hr
        simp only [List.length_cons]
        omega

lemma getAg_mem {l : List AgentSt} {i : Nat} {a : AgentSt}
    (h : getAg l i = some a) : a ∈ l := by
  induction l generalizing i with
  | nil => simp [getAg] at h
  | cons x rest ih =>
    cases i with
    | zero =>
      unfold getAg at h
      cases h
      exact List.mem_cons_self _ _
    | succ n =>
      unfold getAg at h
      exact List.mem_cons_of_mem x (ih h)

lemma getAg_append_left {l l' : List AgentSt} {i : Nat} {a : AgentSt}
    (h : getAg l i = some a) : getAg (l ++ l') i = some a := by
  induction l generalizing i with
  | nil => simp [getAg] at h
  | cons x rest ih =>
    cases i with
    | zero => exact h
    | succ n => exact ih h

lemma getAg_append_length (l : List AgentSt) (x : AgentSt) :
    getAg (l ++ [x]) l.length = some x := by
  induction l with
  | nil => rfl
  | cons y rest ih => exact ih

lemma setMsgsList_length (l : List AgentSt) (i : Nat) (msgs : List Msg) :
    (setMsgsList l i msgs).length = l.length := by
  induction l generalizing i with
  | nil => rfl
  | cons x rest ih =>
    cases i with
    | zero => rfl
    | succ n =>
      show (x :: setMsgsList rest n msgs).length = (x :: rest).length
      simp [List.length_cons, ih n]

lemma getAg_setMsgsList_self {l : List AgentSt} {i : Nat} {a : AgentSt}
    (msgs : List Msg) (h : getAg l i = some a) :
    getAg (setMsgsList l i msgs) i =
      some { a with model := { a.model with messages := some msgs } } := by
  induction l generalizing i with
  | nil => simp [getAg] at h
  | cons x rest ih =>
    cases i with
    | zero =>
      unfold getAg at h
      cases h
      rfl
    | succ n => exact ih h

lemma getAg_setMsgsList_ne {l : List AgentSt} {i j : Nat} (msgs : List Msg)
    (h : i ≠ j) : getAg (setMsgsList l j msgs) i = getAg l i := by
  induction l generalizing i j with
  | nil => rfl
  | cons x rest ih =>
    cases j with
    | zero =>
      cases i with
      | zero => exact absurd rfl h
      | succ n => rfl
    | succ jn =>
      cases i with
      | zero => rfl
      | succ n => exact ih (by omega)

lemma findAgentIdx_setMsgsList (l : List AgentSt) (j : Nat) (msgs : List Msg)
    (nm : String) : findAgentIdx (setMsgsList l j msgs) nm = findAgentIdx l nm := by
  induction l generalizing j with
  | nil => rfl
  | cons x rest ih =>
    cases j with
    | zero => rfl
    | succ jn =>
      show findAgentIdx (x :: setMsgsList rest jn msgs) nm = _
      unfold findAgentIdx
      rw [ih jn]

lemma findAgentIdx_append_fresh {l : List AgentSt} {nm : String}
    (h : findAgentIdx l nm = none) (x : AgentSt) :
    findAgentIdx (l ++ [x]) nm =
      if x.spec.name == nm then some l.length else none := by
  induction l with
  | nil => rfl
  | cons a rest ih =>
    unfold findAgentIdx at h
    by_cases hc : (a.spec.name == nm) = true
    · rw [if_pos hc] at h; cases h
    · rw [if_neg hc] at h
      have hrest : findAgentIdx rest nm = none := by
        cases hr : findAgentIdx rest nm with
        | none => rfl
        | some j => rw [hr] at h; simp at h
      show findAgentIdx (a :: (rest ++ [x])) nm = _
      unfold findAgentIdx
      rw [if_neg hc, ih hrest]
      by_cases hx : (x.spec.name == nm) = true
      · rw [if_pos hx, if_pos hx]
        simp
      · rw [if_neg hx, if_neg hx]
        rfl

lemma getAgentIdx_appendUserInput (m : ManagerSt) (i : Nat) (ui : Option String)
    (nm : String) : getAgentIdx (appendUserInput m i ui) nm = getAgentIdx m nm := by
  cases ui with
  | none => rfl
  | some s =>
    simp only [appendUserInput]
    by_cases hs : s.isEmpty = true
    · rw [if_pos hs]
    · rw [if_neg hs]
      exact findAgentIdx_setMsgsList m.agents i _ nm

lemma appendUserInput_length (m : ManagerSt) (i : Nat) (ui : Option String) :
    (appendUserInput m i ui).agents.length = m.agents.length := by
  cases ui with
  | none => rfl
  | some s =>
    simp only [appendUserInput]
    by_cases hs : s.isEmpty = true
    · rw [if_pos hs]
    · rw [if_neg hs]
      exact setMsgsList_length m.agents i _

/- `keepsAgents` machinery. -/

lemma keepsAgents_refl (m : ManagerSt) : keepsAgents m m :=
  fun _ a h => ⟨a, h, rfl⟩

lemma keepsAgents_trans {m₁ m₂ m₃ : ManagerSt} (h₁ : keepsAgents m₁ m₂)
    (h₂ : keepsAgents m₂ m₃) : keepsAgents m₁ m₃ := by
  intro i a h
  obtain ⟨a', ha', hspec⟩ := h₁ i a h
  obtain ⟨a'', ha'', hspec'⟩ := h₂ i a' ha'
  exact ⟨a'', ha'', hspec'.trans hspec⟩

lemma keepsAgents_set (m : ManagerSt) (i : Nat) (msgs : List Msg) :
    keepsAgents m (setAgentMessages m i msgs) := by
  intro j a h
  by_cases hj : j = i
  · subst hj
    exact ⟨_, getAg_setMsgsList_self msgs h, rfl⟩
  · exact ⟨a, (getAg_setMsgsList_ne msgs hj).trans h, rfl⟩

lemma keepsAgents_add (m : ManagerSt) (a : AgentV) :
    keepsAgents m (add_agent m a) :=
  fun _ x h => ⟨x, getAg_append_left h, rfl⟩

lemma keepsAgents_appendUserInput (m : ManagerSt) (i : Nat) (ui : Option String) :
    keepsAgents m (appendUserInput m i ui) := by
  cases ui with
  | none => exact keepsAgents_refl m
  | some s =>
    simp only [appendUserInput]
    by_cases hs : s.isEmpty = true
    · rw [if_pos hs]; exact keepsAgents_refl m
    · rw [if_neg hs]; exact keepsAgents_set m i _

lemma processTools_keeps {env : Env}
    {runA : ManagerSt → String → Option String → Except RunErr RunOut}
    {ui : Option String} {c : ToolCall} {args : List (String × String)}
    (hA : ∀ m₀ nm u out, runA m₀ nm u = .ok out → keepsAgents m₀ out.manager) :
    ∀ (tools : List Tool) (cur : List Msg) (m : ManagerSt) (log : List GenCall)
      (cur' : List Msg) (m' : ManagerSt) (log' : List GenCall),
      processTools env runA ui c args tools cur m log = .ok (cur', m', log') →
      keepsAgents m m' := by
  intro tools
  induction tools with
  | nil =>
    intro cur m log cur' m' log' h
    unfold processTools at h
    cases h
    exact keepsAgents_refl m
  | cons t rest ih =>
    intro cur m log cur' m' log' h
    unfold processTools at h
    by_cases hname : (t.name == c.function.name) = true
    · rw [if_pos hname] at h
      cases himpl : t.impl args with
      | scalar s =>
        simp only [himpl] at h
        exact ih _ _ _ _ _ _ h
      | agentRes a =>
        simp only [himpl] at h
        cases hrun : runA (add_agent m a) a.name ui with
        | error e => simp [hrun] at h
        | ok out =>
          simp only [hrun] at h
          cases hch : out.response.choices with
          | nil => simp [hch] at h
          | cons ch chs =>
            simp only [hch] at h
            refine keepsAgents_trans (keepsAgents_add m a) ?_
            exact keepsAgents_trans (hA _ _ _ _ hrun) (ih _ _ _ _ _ _ h)
    · rw [if_neg hname] at h
      exact ih _ _ _ _ _ _ h

lemma processCalls_keeps {env : Env}
    {runA : ManagerSt → String → Option String → Except RunErr RunOut}
    {ui : Option String} {tools : List Tool}
    (hA : ∀ m₀ nm u out, runA m₀ nm u = .ok out → keepsAgents m₀ out.manager) :
    ∀ (calls : List ToolCall) (cur : List Msg) (m : ManagerSt) (log : List GenCall)
      (cur' : List Msg) (m' : ManagerSt) (log' : List GenCall),
      processCalls env runA ui tools calls cur m log = .ok (cur', m', log') →
      keepsAgents m m' := by
  intro calls
  induction calls with
  | nil =>
    intro cur m log cur' m' log' h
    unfold processCalls at h
    cases h
    exact keepsAgents_refl m
  | cons c rest ih =>
    intro cur m log cur' m' log' h
    unfold processCalls at h
    split at h
    · cases h
    · split at h
      · cases h
      · rename_i args hargs cur₁ m₁ log₁ hpt
        exact keepsAgents_trans (processTools_keeps hA _ _ _ _ _ _ _ hpt)
          (ih _ _ _ _ _ _ h)

lemma run_agent_keeps (env : Env) :
    ∀ (fuel : Nat) (m : ManagerSt) (name : String) (ui : Option String) (out : RunOut),
      run_agent env fuel m name ui = .ok out → keepsAgents m out.manager := by
  intro fuel
  induction fuel with
  | zero =>
    intro m name ui out h
    exact absurd h (by simp [run_agent])
  | succ fuel ih =>
    intro m name ui out h
    rw [run_agent_succ] at h
    unfold runAgentStep at h
    split at h
    · cases h
    · rename_i i hidx
      split at h
      · cases h
      · rename_i ag hag
        split at h
        · cases h
        · rename_i msgs hmsgs
          split at h
          · cases h
            exact keepsAgents_appendUserInput m i ui
          · split at h
            · cases h
            · rename_i cur' m₂ log₂ hpc
              unfold finishToolPass at h
              split at h
              · cases h
              · rename_i ag₂ hag₂
                split at h
                · cases h
                · rename_i msgs₂ hmsgs₂
                  cases h
                  refine keepsAgents_trans (keepsAgents_appendUserInput m i ui) ?_
                  exact keepsAgents_trans (processCalls_keeps ih _ _ _ _ _ _ _ hpc)
                    (keepsAgents_set m₂ i cur')

/- Tool-pass shape lemmas. -/

lemma filterMap_length_all_some {α β : Type} (f : α → Option β) :
    ∀ (l : List α), (∀ x ∈ l, (f x).isSome) → (l.filterMap f).length = l.length := by
  intro l
  induction l with
  | nil => intro _; rfl
  | cons x rest ih =>
    intro h
    have hx := h x (List.mem_cons_self _ _)
    cases hfx : f x with
    | none => rw [hfx] at hx; simp at hx
    | some b =>
      rw [List.filterMap_cons, hfx]
      simp only [List.length_cons]
      rw [ih (fun y hy => h y (List.mem_cons_of_mem _ hy))]

lemma finishToolPass_eq {m₂ : ManagerSt} {i : Nat} {a' : AgentSt}
    (env : Env) (cur' : List Msg) (log₂ : List GenCall)
    (ha' : getAg m₂.agents i = some a') :
    finishToolPass env i m₂ cur' log₂ =
      .ok ⟨env.gen i cur', setAgentMessages m₂ i cur', log₂ ++ [⟨i, cur'⟩]⟩ := by
  unfold finishToolPass
  have h := getAg_setMsgsList_self cur' ha'
  rw [show (setAgentMessages m₂ i cur').agents = setMsgsList m₂.agents i cur' from rfl]
  rw [h]

lemma processTools_no_match {env : Env}
    {runA : ManagerSt → String → Option String → Except RunErr RunOut}
    {ui : Option String} {c : ToolCall} {args : List (String × String)} :
    ∀ (tools : List Tool) (cur : List Msg) (m : ManagerSt) (log : List GenCall),
      tools.filter (fun t => t.name == c.function.name) = [] →
      processTools env runA ui c args tools cur m log = .ok (cur, m, log) := by
  intro tools
  induction tools with
  | nil => intro cur m log _; rfl
  | cons t rest ih =>
    intro cur m log hf
    rw [List.filter_cons] at hf
    by_cases hname : (t.name == c.function.name) = true
    · rw [if_pos hname] at hf
      simp at hf
    · rw [if_neg hname] at hf
      unfold processTools
      rw [if_neg hname]
      exact ih cur m log hf

lemma processTools_scalars {env : Env}
    {runA : ManagerSt → String → Option String → Except RunErr RunOut}
    {ui : Option String} {c : ToolCall} {args : List (String × String)} :
    ∀ (tools : List Tool), (∀ t ∈ tools, ∃ s, t.impl args = ToolRes.scalar s) →
      ∀ (cur : List Msg) (m : ManagerSt) (log : List GenCall),
        processTools env runA ui c args tools cur m log =
          .ok (cur ++ (tools.filter (fun t => t.name == c.function.name)).map
            (fun t => Msg.tool c.id (scalarStr (t.impl args))), m, log) := by
  intro tools
  induction tools with
  | nil => intro _ cur m log; simp [processTools]
  | cons t rest ih =>
    intro hs cur m log
    obtain ⟨s, hsv⟩ := hs t (List.mem_cons_self _ _)
    have hrest := fun t ht => hs t (List.mem_cons_of_mem _ ht)
    unfold processTools
    rw [List.filter_cons]
    by_cases hname : (t.name == c.function.name) = true
    · rw [if_pos hname, if_pos hname]
      simp only [hsv]
      rw [ih hrest]
      simp [hsv, scalarStr]
    · rw [if_neg hname, if_neg hname]
      exact ih hrest cur m log

lemma processTools_single_match {env : Env}
    {runA : ManagerSt → String → Option String → Except RunErr RunOut}
    {ui : Option String} {c : ToolCall} {args : List (String × String)} :
    ∀ (tools : List Tool) (cur : List Msg) (m : ManagerSt) (log : List GenCall)
      (cur' : List Msg) (m' : ManagerSt) (log' : List GenCall),
      (tools.filter (fun t => t.name == c.function.name)).length = 1 →
      processTools env runA ui c args tools cur m log = .ok (cur', m', log') →
      ∃ s, cur' = cur ++ [Msg.tool c.id s] := by
  intro tools
  induction tools with
  | nil =>
    intro cur m log cur' m' log' hone _
    simp [List.filter_nil] at hone
  | cons t rest ih =>
    intro cur m log cur' m' log' hone h
    rw [List.filter_cons] at hone
    unfold processTools at h
    by_cases hname : (t.name == c.function.name) = true
    · rw [if_pos hname] at hone
      rw [if_pos hname] at h
      simp only [List.length_cons] at hone
      have hrest0 : rest.filter (fun t => t.name == c.function.name) = [] :=
        List.length_eq_zero.mp (by omega)
      cases himpl : t.impl args with
      | scalar s =>
        simp only [himpl] at h
        rw [processTools_no_match rest _ _ _ hrest0] at h
        simp only [Except.ok.injEq, Prod.mk.injEq] at h
        exact ⟨s, h.1.symm⟩
      | agentRes a =>
        simp only [himpl] at h
        cases hrun : runA (add_agent m a) a.name ui with
        | error e => simp [hrun] at h
        | ok out =>
          simp only [hrun] at h
          cases hch : out.response.choices with
          | nil => simp [hch] at h
          | cons ch chs =>
            simp only [hch] at h
            rw [processTools_no_match rest _ _ _ hrest0] at h
            simp only [Except.ok.injEq, Prod.mk.injEq] at h
            exact ⟨choiceText ch.message, h.1.symm⟩
    · rw [if_neg hname] at hone
      rw [if_neg hname] at h
      exact ih _ _ _ _ _ _ hone h

lemma processCalls_single_matches {env : Env}
    {runA : ManagerSt → String → Option String → Except RunErr RunOut}
    {ui : Option String} {tools : List Tool} :
    ∀ (calls : List ToolCall) (cur : List Msg) (m : ManagerSt) (log : List GenCall)
      (cur' : List Msg) (m' : ManagerSt) (log' : List GenCall),
      (∀ c ∈ calls, (tools.filter (fun t => t.name == c.function.name)).length = 1) →
      processCalls env runA ui tools calls cur m log = .ok (cur', m', log') →
      ∃ add, cur' = cur ++ add ∧
        add.filterMap msgToolId = calls.map (fun c => c.id) ∧
        ∀ x ∈ add, (msgToolId x).isSome := by
  intro calls
  induction calls with
  | nil =>
    intro cur m log cur' m' log' _ h
    unfold processCalls at h
    simp only [Except.ok.injEq, Prod.mk.injEq] at h
    refine ⟨[], by simp [h.1.symm], rfl, by simp⟩
  | cons c rest ih =>
    intro cur m log cur' m' log' hone h
    unfold processCalls at h
    cases hargs : env.decode c.function.arguments with
    | none => simp [hargs] at h
    | some args =>
      simp only [hargs] at h
      cases hpt : processTools env runA ui c args tools cur m log with
      | error e => simp [hpt] at h
      | ok res =>
        obtain ⟨cur₁, m₁, log₁⟩ := res
        simp only [hpt] at h
        obtain ⟨s, hcur₁⟩ := processTools_single_match tools cur m log cur₁ m₁ log₁
          (hone c (List.mem_cons_self _ _)) hpt
        obtain ⟨add', hcur', hids, hsome⟩ := ih cur₁ m₁ log₁ cur' m' log'
          (fun c' hc' => hone c' (List.mem_cons_of_mem _ hc')) h
        refine ⟨Msg.tool c.id s :: add', ?_, ?_, ?_⟩
        · rw [hcur', hcur₁]
          simp
        · simp [List.filterMap_cons, msgToolId, hids]
        · intro x hx
          rcases List.mem_cons.mp hx with h' | h'
          · rw [h']
            simp [msgToolId]
          · exact hsome x h'

lemma processTools_log_extends {env : Env}
    {runA : ManagerSt → String → Option String → Except RunErr RunOut}
    {ui : Option String} {c : ToolCall} {args : List (String × String)} :
    ∀ (tools : List Tool) (cur : List Msg) (m : ManagerSt) (log : List GenCall)
      (cur' : List Msg) (m' : ManagerSt) (log' : List GenCall),
      processTools env runA ui c args tools cur m log = .ok (cur', m', log') →
      ∃ d, log' = log ++ d := by
  intro tools
  induction tools with
  | nil =>
    intro cur m log cur' m' log' h
    unfold processTools at h
    simp only [Except.ok.injEq, Prod.mk.injEq] at h
    exact ⟨[], by simp [h.2.2]⟩
  | cons t rest ih =>
    intro cur m log cur' m' log' h
    unfold processTools at h
    by_cases hname : (t.name == c.function.name) = true
    · rw [if_pos hname] at h
      cases himpl : t.impl args with
      | scalar s =>
        simp only [himpl] at h
        exact ih _ _ _ _ _ _ h
      | agentRes a =>
        simp only [himpl] at h
        cases hrun : runA (add_agent m a) a.name ui with
        | error e => simp [hrun] at h
        | ok out =>
          simp only [hrun] at h
          cases hch : out.response.choices with
          | nil => simp [hch] at h
          | cons ch chs =>
            simp only [hch] at h
            obtain ⟨d, hd⟩ := ih _ _ _ _ _ _ h
            exact ⟨out.log ++ d, by simp [hd]⟩
    · rw [if_neg hname] at h
      exact ih _ _ _ _ _ _ h

lemma processCalls_log_extends {env : Env}
    {runA : ManagerSt → String → Option String → Except RunErr RunOut}
    {ui : Option String} {tools : List Tool} :
    ∀ (calls : List ToolCall) (cur : List Msg) (m : ManagerSt) (log : List GenCall)
      (cur' : List Msg) (m' : ManagerSt) (log' : List GenCall),
      processCalls env runA ui tools calls cur m log = .ok (cur', m', log') →
      ∃ d, log' = log ++ d := by
  intro calls
  induction calls with
  | nil =>
    intro cur m log cur' m' log' h
    unfold processCalls at h
    simp only [Except.ok.injEq, Prod.mk.injEq] at h
    exact ⟨[], by simp [h.2.2]⟩
  | cons c rest ih =>
    intro cur m log cur' m' log' h
    unfold processCalls at h
    cases hargs : env.decode c.function.arguments with
    | none => simp [hargs] at h
    | some args =>
      simp only [hargs] at h
      cases hpt : processTools env runA ui c args tools cur m log with
      | error e => simp [hpt] at h
      | ok res =>
        obtain ⟨cur₁, m₁, log₁⟩ := res
        simp only [hpt] at h
        obtain ⟨d₁, hd₁⟩ := processTools_log_extends _ _ _ _ _ _ _ hpt
        obtain ⟨d₂, hd₂⟩ := ih _ _ _ _ _ _ h
        exact ⟨d₁ ++ d₂, by simp [hd₂, hd₁]⟩

/- Claim theorems settled with the tool-pass lemmas. -/

/-- C1 (amended): when every tool call of the first response matches exactly
one tool in the agent's tool set, a completed run appends, after the
reconstructed assistant message, exactly N tool-role messages whose
`tool_call_id`s are the calls' ids in backend order. -/
theorem c1_tool_messages_match_calls
    (env : Env) (fuel : Nat) (m : ManagerSt) (name : String) (ui : Option String)
    (i : Nat) (ag : AgentSt) (msgs : List Msg) (out : RunOut)
    (h1 : getAgentIdx m name = some i)
    (h2 : getAg (appendUserInput m i ui).agents i = some ag)
    (h3 : ag.model.messages = some msgs)
    (h4 : (env.gen i msgs).tool_calls ≠ [])
    (hone : ∀ c ∈ (env.gen i msgs).tool_calls,
      (ag.spec.tools.filter (fun t => t.name == c.function.name)).length = 1)
    (hok : run_agent env (fuel + 1) m name ui = .ok out) :
    ∃ add,
      getAgentMessages out.manager i =
        some (msgs ++ [Msg.assistantCalls ((env.gen i msgs).content.getD "")
          (env.gen i msgs).tool_calls] ++ add) ∧
      add.length = (env.gen i msgs).tool_calls.length ∧
      add.filterMap msgToolId = (env.gen i msgs).tool_calls.map (fun c => c.id) ∧
      ∀ x ∈ add, (msgToolId x).isSome := by
  rw [run_agent_succ] at hok
  unfold runAgentStep at hok
  simp only [h1, h2, h3] at hok
  have hne : (env.gen i msgs).tool_calls.isEmpty = false := by
    cases hcs : (env.gen i msgs).tool_calls
    · exact absurd hcs h4
    · rfl
  rw [if_neg (by simp [hne])] at hok
  cases hpc : processCalls env (run_agent env fuel) ui ag.spec.tools
      (env.gen i msgs).tool_calls
      (msgs ++ [Msg.assistantCalls ((env.gen i msgs).content.getD "")
        (env.gen i msgs).tool_calls])
      (appendUserInput m i ui) [⟨i, msgs⟩] with
  | error e => simp [hpc] at hok
  | ok res =>
    obtain ⟨cur', m₂, log₂⟩ := res
    simp only [hpc] at hok
    obtain ⟨add, hcur', hids, hsome⟩ :=
      processCalls_single_matches _ _ _ _ _ _ _ hone hpc
    have hkeep := processCalls_keeps
      (fun m₀ nm u out₀ hrun => run_agent_keeps env fuel m₀ nm u out₀ hrun)
      _ _ _ _ _ _ _ hpc
    obtain ⟨a', ha', hspec⟩ := hkeep i ag h2
    rw [finishToolPass_eq env cur' log₂ ha'] at hok
    cases hok
    refine ⟨add, ?_, ?_, hids, hsome⟩
    · show getAgentMessages (setAgentMessages m₂ i cur') i = _
      unfold getAgentMessages
      rw [show (setAgentMessages m₂ i cur').agents = setMsgsList m₂.agents i cur' from rfl]
      rw [getAg_setMsgsList_self cur' ha']
      simp [hcur']
    · have hlen := filterMap_length_all_some msgToolId add hsome
      rw [hids] at hlen
      simpa using hlen.symm

/-- Witness for C1 (amended) on an agent with a single matching tool. -/
theorem c1_witness :
    ∃ out, run_agent envW1 2 mgrW1 "w" none = .ok out ∧
      ∃ add,
        getAgentMessages out.manager 0 =
          some ([Msg.assistant "wi"] ++
            [Msg.assistantCalls ((envW1.gen 0 [Msg.assistant "wi"]).content.getD "")
              (envW1.gen 0 [Msg.assistant "wi"]).tool_calls] ++ add) ∧
        add.length = (envW1.gen 0 [Msg.assistant "wi"]).tool_calls.length ∧
        add.filterMap msgToolId =
          (envW1.gen 0 [Msg.assistant "wi"]).tool_calls.map (fun c => c.id) ∧
        ∀ x ∈ add, (msgToolId x).isSome := by
  refine ⟨_, rfl, ?_⟩
  exact c1_tool_messages_match_calls envW1 1 mgrW1 "w" none 0 _
    [Msg.assistant "wi"] _ rfl rfl rfl (by decide) (by decide) rfl

/-- C3 (amended): a tool-call payload that fails to deserialize raises an
uncaught deserialization error, while a call whose function name matches no
tool is silently skipped: the run completes with no tool-role message for
it. -/
theorem c3_dispatch_errors :
    (∀ (env : Env) (fuel : Nat) (m : ManagerSt) (name : String) (ui : Option String)
        (i : Nat) (ag : AgentSt) (msgs : List Msg) (c : ToolCall) (rest : List ToolCall),
      getAgentIdx m name = some i →
      getAg (appendUserInput m i ui).agents i = some ag →
      ag.model.messages = some msgs →
      (env.gen i msgs).tool_calls = c :: rest →
      env.decode c.function.arguments = none →
      run_agent env (fuel + 1) m name ui = .error (.jsonDecodeError c.function.arguments)) ∧
    (∀ (env : Env) (fuel : Nat) (m : ManagerSt) (name : String) (ui : Option String)
        (i : Nat) (ag : AgentSt) (msgs : List Msg) (c : ToolCall)
        (args : List (String × String)),
      getAgentIdx m name = some i →
      getAg (appendUserInput m i ui).agents i = some ag →
      ag.model.messages = some msgs →
      (env.gen i msgs).tool_calls = [c] →
      env.decode c.function.arguments = some args →
      ag.spec.tools.filter (fun t => t.name == c.function.name) = [] →
      run_agent env (fuel + 1) m name ui =
        .ok ⟨env.gen i (msgs ++ [Msg.assistantCalls ((env.gen i msgs).content.getD "") [c]]),
          setAgentMessages (appendUserInput m i ui) i
            (msgs ++ [Msg.assistantCalls ((env.gen i msgs).content.getD "") [c]]),
          [⟨i, msgs⟩,
           ⟨i, msgs ++ [Msg.assistantCalls ((env.gen i msgs).content.getD "") [c]]⟩]⟩) := by
  constructor
  · intro env fuel m name ui i ag msgs c rest h1 h2 h3 hcalls hdec
    rw [run_agent_succ]
    unfold runAgentStep
    simp only [h1, h2, h3, hcalls, List.isEmpty_cons, Bool.false_eq_true, if_false]
    unfold processCalls
    simp [hdec]
  · intro env fuel m name ui i ag msgs c args h1 h2 h3 hcalls hdec hnom
    rw [run_agent_succ]
    unfold runAgentStep
    simp only [h1, h2, h3, hcalls, List.isEmpty_cons, Bool.false_eq_true, if_false]
    simp only [processCalls, hdec, processTools_no_match _ _ _ _ hnom]
    rw [finishToolPass_eq env _ _ h2]
    simp

/-- Witness for C3: a failing payload raises; an unmatched name is skipped
and the run completes. -/
theorem c3_witness :
    run_agent envW3 1 cexMgrA "a" none = .error (.jsonDecodeError "payload") ∧
    run_agent cexEnvA 1 cexMgrA "a" none =
      .ok ⟨cexEnvA.gen 0 [Msg.assistant "inst", Msg.assistantCalls "" [tcA]],
        setAgentMessages (appendUserInput cexMgrA 0 none) 0
          [Msg.assistant "inst", Msg.assistantCalls "" [tcA]],
        [⟨0, [Msg.assistant "inst"]⟩,
         ⟨0, [Msg.assistant "inst", Msg.assistantCalls "" [tcA]]⟩]⟩ :=
  ⟨c3_dispatch_errors.1 envW3 0 cexMgrA "a" none 0 _ [Msg.assistant "inst"] tcA []
      rfl rfl rfl rfl rfl,
   c3_dispatch_errors.2 cexEnvA 0 cexMgrA "a" none 0 _ [Msg.assistant "inst"] tcA []
      rfl rfl rfl rfl rfl rfl⟩

/-- C4 (amended): the tool scan has no early exit — every tool whose name
matches the call's function name is invoked with the deserialized arguments
(in tool-set order) and appends its own tool-role message; with unique
names this degenerates to exactly one invocation of the first match. -/
theorem c4_all_matches_invoked
    (env : Env) (fuel : Nat) (m : ManagerSt) (name : String) (ui : Option String)
    (i : Nat) (ag : AgentSt) (msgs : List Msg) (c : ToolCall)
    (args : List (String × String))
    (h1 : getAgentIdx m name = some i)
    (h2 : getAg (appendUserInput m i ui).agents i = some ag)
    (h3 : ag.model.messages = some msgs)
    (hcalls : (env.gen i msgs).tool_calls = [c])
    (hdec : env.decode c.function.arguments = some args)
    (hscalar : ∀ t ∈ ag.spec.tools, ∃ s, t.impl args = ToolRes.scalar s) :
    run_agent env (fuel + 1) m name ui =
      .ok ⟨env.gen i (msgs ++ [Msg.assistantCalls ((env.gen i msgs).content.getD "") [c]] ++
          (ag.spec.tools.filter (fun t => t.name == c.function.name)).map
            (fun t => Msg.tool c.id (scalarStr (t.impl args)))),
        setAgentMessages (appendUserInput m i ui) i
          (msgs ++ [Msg.assistantCalls ((env.gen i msgs).content.getD "") [c]] ++
            (ag.spec.tools.filter (fun t => t.name == c.function.name)).map
              (fun t => Msg.tool c.id (scalarStr (t.impl args)))),
        [⟨i, msgs⟩,
         ⟨i, msgs ++ [Msg.assistantCalls ((env.gen i msgs).content.getD "") [c]] ++
            (ag.spec.tools.filter (fun t => t.name == c.function.name)).map
              (fun t => Msg.tool c.id (scalarStr (t.impl args)))⟩]⟩ := by
  rw [run_agent_succ]
  unfold runAgentStep
  simp only [h1, h2, h3, hcalls, List.isEmpty_cons, Bool.false_eq_true, if_false]
  simp only [processCalls, hdec, processTools_scalars _ hscalar]
  rw [finishToolPass_eq env _ _ h2]
  simp

/-- Witness for C4 (amended): with two tools both named `f`, both are
invoked and both tool-role messages appear, in tool-set order. -/
theorem c4_witness :
    run_agent cexEnvB 1 cexMgrB "b" none =
      .ok ⟨cexEnvB.gen 0 [Msg.assistant "insb", Msg.assistantCalls "" [tcF],
            Msg.tool "call-9" "one", Msg.tool "call-9" "two"],
        setAgentMessages (appendUserInput cexMgrB 0 none) 0
          [Msg.assistant "insb", Msg.assistantCalls "" [tcF],
            Msg.tool "call-9" "one", Msg.tool "call-9" "two"],
        [⟨0, [Msg.assistant "insb"]⟩,
         ⟨0, [Msg.assistant "insb", Msg.assistantCalls "" [tcF],
            Msg.tool "call-9" "one", Msg.tool "call-9" "two"]⟩]⟩ :=
  c4_all_matches_invoked cexEnvB 0 cexMgrB "b" none 0 _ [Msg.assistant "insb"] tcF []
    rfl rfl rfl rfl rfl
    (by
      intro t ht
      rcases List.mem_cons.mp ht with h | h
      · exact ⟨"one", by rw [h]; rfl⟩
      · rcases List.mem_cons.mp h with h' | h'
        · exact ⟨"two", by rw [h']; rfl⟩
        · simp at h')

/-- C9 (amended): a provided non-empty input is appended to the resolved
agent's history as a user-role message with that content, and the first
generation of the run is invoked on the appended history; a `None` input
(and, per the counterexample, an empty string) leaves the history as-is. -/
theorem c9_user_append :
    (∀ (m : ManagerSt) (i : Nat) (s : String) (msgs : List Msg),
      getAgentMessages m i = some msgs → s ≠ "" →
      getAgentMessages (appendUserInput m i (some s)) i = some (msgs ++ [Msg.user s])) ∧
    (∀ (env : Env) (fuel : Nat) (m : ManagerSt) (name : String) (i : Nat) (s : String)
        (msgs : List Msg),
      getAgentIdx m name = some i → getAgentMessages m i = some msgs → s ≠ "" →
      ∀ out, run_agent env (fuel + 1) m name (some s) = .ok out →
        out.log.head? = some ⟨i, msgs ++ [Msg.user s]⟩) ∧
    (∀ (m : ManagerSt) (i : Nat), appendUserInput m i none = m) := by
  have hemp : ∀ (s : String), s ≠ "" → s.isEmpty = false := by
    intro s hs
    cases he : s.isEmpty
    · rfl
    · exact absurd ((String.isEmpty_iff s).mp he) hs
  have happend : ∀ (m : ManagerSt) (i : Nat) (s : String) (msgs : List Msg),
      getAgentMessages m i = some msgs → s ≠ "" →
      getAgentMessages (appendUserInput m i (some s)) i = some (msgs ++ [Msg.user s]) := by
    intro m i s msgs hm hs
    simp only [appendUserInput, hemp s hs, Bool.false_eq_true, if_false, hm,
      Option.getD_some]
    unfold getAgentMessages at hm ⊢
    obtain ⟨a, ha, hmsg⟩ := Option.bind_eq_some.mp hm
    rw [show (setAgentMessages m i (msgs ++ [Msg.user s])).agents =
      setMsgsList m.agents i (msgs ++ [Msg.user s]) from rfl]
    rw [getAg_setMsgsList_self _ ha]
    rfl
  refine ⟨happend, ?_, fun m i => rfl⟩
  intro env fuel m name i s msgs h1 hm hs out hok
  have hup := happend m i s msgs hm hs
  unfold getAgentMessages at hup
  obtain ⟨a₁, ha₁, hmsg₁⟩ := Option.bind_eq_some.mp hup
  rw [run_agent_succ] at hok
  unfold runAgentStep at hok
  simp only [h1, ha₁, hmsg₁] at hok
  split at hok
  · cases hok
    rfl
  · split at hok
    · cases hok
    · rename_i cur' m₂ log₂ hpc
      obtain ⟨d, hd⟩ := processCalls_log_extends _ _ _ _ _ _ _ hpc
      unfold finishToolPass at hok
      split at hok
      · cases hok
      · split at hok
        · cases hok
        · cases hok
          simp [hd]

/-- Witness for C9 on a registered agent with input `hello`. -/
theorem c9_witness :
    getAgentMessages (appendUserInput cexMgrA 0 (some "hello")) 0 =
      some ([Msg.assistant "inst"] ++ [Msg.user "hello"]) ∧
    (∃ out, run_agent cexEnvC 1 cexMgrA "a" (some "hello") = .ok out ∧
      out.log.head? = some ⟨0, [Msg.assistant "inst"] ++ [Msg.user "hello"]⟩) ∧
    appendUserInput cexMgrA 0 none = cexMgrA :=
  ⟨c9_user_append.1 cexMgrA 0 "hello" [Msg.assistant "inst"] rfl (by decide),
   ⟨_, rfl, c9_user_append.2.1 cexEnvC 0 cexMgrA "a" 0 "hello" [Msg.assistant "inst"]
     rfl rfl (by decide) _ rfl⟩,
   c9_user_append.2.2 cexMgrA 0⟩

/-- C2 (amended): when a dispatched tool returns an `Agent` whose name is
not already registered, the run registers it (it sits at the end of the
registry afterwards), recursively runs it on the same original user input
(the nested generation is called with the fresh agent's seeded history plus
the original user message, not the tool's output), and appends a tool-role
message carrying the nested response's first-choice text and the original
call id.  The counterexample shows the freshness proviso is necessary: a
name collision makes the recursive run resolve to the older agent. -/
theorem c2_delegation_roundtrip
    (env : Env) (fuel : Nat) (m : ManagerSt) (name : String) (s : String)
    (i : Nat) (ag : AgentSt) (msgs : List Msg) (c : ToolCall)
    (args : List (String × String)) (t : Tool) (a : AgentV) (ch : Choice)
    (chs : List Choice)
    (h1 : getAgentIdx m name = some i)
    (h2 : getAg (appendUserInput m i (some s)).agents i = some ag)
    (h3 : ag.model.messages = some msgs)
    (hs : s ≠ "")
    (hcalls : (env.gen i msgs).tool_calls = [c])
    (hdec : env.decode c.function.arguments = some args)
    (htools : ag.spec.tools = [t])
    (hname : t.name = c.function.name)
    (himpl : t.impl args = ToolRes.agentRes a)
    (hfresh : getAgentIdx m a.name = none)
    (hnest : (env.gen m.agents.length
      [Msg.assistant a.instruction, Msg.user s]).tool_calls = [])
    (hch : (env.gen m.agents.length
      [Msg.assistant a.instruction, Msg.user s]).choices = ch :: chs) :
    ∃ out, run_agent env (fuel + 2) m name (some s) = .ok out ∧
      (∃ a', getAg out.manager.agents m.agents.length = some a' ∧ a'.spec = a) ∧
      (⟨m.agents.length, [Msg.assistant a.instruction, Msg.user s]⟩ : GenCall) ∈ out.log ∧
      getAgentMessages out.manager i =
        some (msgs ++ [Msg.assistantCalls ((env.gen i msgs).content.getD "") [c]]
          ++ [Msg.tool c.id (choiceText ch.message)]) := by
  have hsf : s.isEmpty = false := by
    cases he : s.isEmpty
    · rfl
    · exact absurd ((String.isEmpty_iff s).mp he) hs
  have hL : i < m.agents.length := findAgentIdx_lt h1
  have hlen1 : (appendUserInput m i (some s)).agents.length = m.agents.length :=
    appendUserInput_length m i (some s)
  have hfresh1 : findAgentIdx (appendUserInput m i (some s)).agents a.name = none := by
    have h := getAgentIdx_appendUserInput m i (some s) a.name
    unfold getAgentIdx at h
    rw [h]
    exact hfresh
  have hX : getAg (add_agent (appendUserInput m i (some s)) a).agents m.agents.length =
      some ⟨a, ⟨some [Msg.assistant a.instruction],
        some (a.tools.map (fun t => function_to_json t openAiToolFormat))⟩⟩ := by
    show getAg ((appendUserInput m i (some s)).agents ++ [_]) m.agents.length = _
    rw [← hlen1]
    exact getAg_append_length _ _
  have hidxX : getAgentIdx (add_agent (appendUserInput m i (some s)) a) a.name =
      some m.agents.length := by
    show findAgentIdx ((appendUserInput m i (some s)).agents ++ [_]) a.name = _
    rw [findAgentIdx_append_fresh hfresh1]
    simp [hlen1]
  have hnestmsgs : getAgentMessages (add_agent (appendUserInput m i (some s)) a)
      m.agents.length = some [Msg.assistant a.instruction] := by
    unfold getAgentMessages
    rw [hX]
    rfl
  have hm₂ : appendUserInput (add_agent (appendUserInput m i (some s)) a)
        m.agents.length (some s) =
      setAgentMessages (add_agent (appendUserInput m i (some s)) a) m.agents.length
        ([Msg.assistant a.instruction] ++ [Msg.user s]) := by
    show (if s.isEmpty then add_agent (appendUserInput m i (some s)) a
      else setAgentMessages (add_agent (appendUserInput m i (some s)) a) m.agents.length
        (((getAgentMessages (add_agent (appendUserInput m i (some s)) a)
          m.agents.length).getD []) ++ [Msg.user s])) = _
    rw [if_neg (show ¬s.isEmpty = true by simp [hsf])]
    rw [hnestmsgs]
    rfl
  have hagX : getAg (appendUserInput (add_agent (appendUserInput m i (some s)) a)
        m.agents.length (some s)).agents m.agents.length =
      some ⟨a, ⟨some ([Msg.assistant a.instruction] ++ [Msg.user s]),
        some (a.tools.map (fun t => function_to_json t openAiToolFormat))⟩⟩ := by
    rw [hm₂]
    rw [show (setAgentMessages (add_agent (appendUserInput m i (some s)) a)
      m.agents.length ([Msg.assistant a.instruction] ++ [Msg.user s])).agents =
      setMsgsList (add_agent (appendUserInput m i (some s)) a).agents m.agents.length
        ([Msg.assistant a.instruction] ++ [Msg.user s]) from rfl]
    exact getAg_setMsgsList_self _ hX
  have hagi : getAg (appendUserInput (add_agent (appendUserInput m i (some s)) a)
        m.agents.length (some s)).agents i = some ag := by
    rw [hm₂]
    rw [show (setAgentMessages (add_agent (appendUserInput m i (some s)) a)
      m.agents.length ([Msg.assistant a.instruction] ++ [Msg.user s])).agents =
      setMsgsList (add_agent (appendUserInput m i (some s)) a).agents m.agents.length
        ([Msg.assistant a.instruction] ++ [Msg.user s]) from rfl]
    rw [getAg_setMsgsList_ne _ (by omega)]
    show getAg ((appendUserInput m i (some s)).agents ++ [_]) i = some ag
    exact getAg_append_left h2
  have hnested : run_agent env (fuel + 1)
        (add_agent (appendUserInput m i (some s)) a) a.name (some s) =
      .ok ⟨env.gen m.agents.length [Msg.assistant a.instruction, Msg.user s],
        appendUserInput (add_agent (appendUserInput m i (some s)) a)
          m.agents.length (some s),
        [⟨m.agents.length, [Msg.assistant a.instruction, Msg.user s]⟩]⟩ := by
    rw [run_agent_succ]
    unfold runAgentStep
    simp only [hidxX, hagX]
    simp [hnest]
  refine ⟨⟨env.gen i (msgs ++ [Msg.assistantCalls ((env.gen i msgs).content.getD "") [c]]
      ++ [Msg.tool c.id (choiceText ch.message)]),
    setAgentMessages (appendUserInput (add_agent (appendUserInput m i (some s)) a)
      m.agents.length (some s)) i
      (msgs ++ [Msg.assistantCalls ((env.gen i msgs).content.getD "") [c]]
        ++ [Msg.tool c.id (choiceText ch.message)]),
    [⟨i, msgs⟩, ⟨m.agents.length, [Msg.assistant a.instruction, Msg.user s]⟩,
      ⟨i, msgs ++ [Msg.assistantCalls ((env.gen i msgs).content.getD "") [c]]
        ++ [Msg.tool c.id (choiceText ch.message)]⟩]⟩, ?_, ?_, ?_, ?_⟩
  · show run_agent env (fuel + 1 + 1) m name (some s) = _
    rw [run_agent_succ]
    unfold runAgentStep
    simp only [h1, h2, h3, hcalls, List.isEmpty_cons, Bool.false_eq_true, if_false]
    simp only [processCalls, processTools, hdec, htools]
    rw [if_pos (show (t.name == c.function.name) = true by
      rw [hname]; exact beq_self_eq_true _)]
    simp only [himpl]
    rw [hnested]
    simp only [processTools, processCalls, hch]
    rw [finishToolPass_eq env _ _ hagi]
    simp
  · refine ⟨⟨a, ⟨some ([Msg.assistant a.instruction] ++ [Msg.user s]),
      some (a.tools.map (fun t => function_to_json t openAiToolFormat))⟩⟩, ?_, rfl⟩
    show getAg (setMsgsList (appendUserInput (add_agent (appendUserInput m i (some s)) a)
      m.agents.length (some s)).agents i
        (msgs ++ [Msg.assistantCalls ((env.gen i msgs).content.getD "") [c]]
          ++ [Msg.tool c.id (choiceText ch.message)])) m.agents.length = _
    rw [getAg_setMsgsList_ne _ (by omega)]
    exact hagX
  · simp
  · unfold getAgentMessages
    show (getAg (setMsgsList (appendUserInput (add_agent (appendUserInput m i (some s)) a)
      m.agents.length (some s)).agents i
        (msgs ++ [Msg.assistantCalls ((env.gen i msgs).content.getD "") [c]]
          ++ [Msg.tool c.id (choiceText ch.message)])) i).bind (fun a => a.model.messages) = _
    rw [getAg_setMsgsList_self _ hagi]
    rfl

/-- Witness for C2 (amended): a host agent spawns a fresh agent `x`,
which is registered at index 1 and run with the original input `go`. -/
theorem c2_witness :
    ∃ out, run_agent envW 3 mgrW "h" (some "go") = .ok out ∧
      (∃ a', getAg out.manager.agents 1 = some a' ∧ a'.spec = xAgentW) ∧
      (⟨1, [Msg.assistant "xi", Msg.user "go"]⟩ : GenCall) ∈ out.log ∧
      getAgentMessages out.manager 0 =
        some ([Msg.assistant "hi", Msg.user "go"] ++ [Msg.assistantCalls "" [tcW]]
          ++ [Msg.tool "call-7" "nested"]) :=
  c2_delegation_roundtrip envW 1 mgrW "h" "go" 0 _ [Msg.assistant "hi", Msg.user "go"]
    tcW [] (Tool.mk "spawn" (fun _ => ToolRes.agentRes xAgentW)) xAgentW
    ⟨⟨true, "nested", "r"⟩⟩ []
    rfl rfl rfl (by decide) rfl rfl rfl rfl rfl rfl rfl rfl

/- `allSeeded` machinery: registered agents always have a set history. -/

lemma allSeeded_setAgentMessages {m : ManagerSt} (h : allSeeded m) (i : Nat)
    (msgs : List Msg) : allSeeded (setAgentMessages m i msgs) := by
  suffices hs : ∀ (l : List AgentSt) (j : Nat), (∀ ag ∈ l, ag.model.messages.isSome) →
      ∀ ag ∈ setMsgsList l j msgs, ag.model.messages.isSome from hs m.agents i h
  intro l
  induction l with
  | nil =>
    intro j _ ag hag
    simp [setMsgsList] at hag
  | cons x rest ih =>
    intro j hall ag hag
    cases j with
    | zero =>
      rcases List.mem_cons.mp hag with h' | h'
      · rw [h']
        rfl
      · exact hall ag (List.mem_cons_of_mem _ h')
    | succ n =>
      rcases List.mem_cons.mp hag with h' | h'
      · rw [h']
        exact hall x (List.mem_cons_self _ _)
      · exact ih n (fun y hy => hall y (List.mem_cons_of_mem _ hy)) ag h'

lemma allSeeded_add {m : ManagerSt} (h : allSeeded m) (a : AgentV) :
    allSeeded (add_agent m a) := by
  intro ag hag
  rcases List.mem_append.mp hag with h' | h'
  · exact h ag h'
  · rw [List.mem_singleton.mp h']
    rfl

lemma allSeeded_appendUserInput {m : ManagerSt} (h : allSeeded m) (i : Nat)
    (ui : Option String) : allSeeded (appendUserInput m i ui) := by
  cases ui with
  | none => exact h
  | some s =>
    simp only [appendUserInput]
    by_cases hs : s.isEmpty = true
    · rw [if_pos hs]
      exact h
    · rw [if_neg hs]
      exact allSeeded_setAgentMessages h i _

lemma processTools_seeded {env : Env}
    {runA : ManagerSt → String → Option String → Except RunErr RunOut}
    {ui : Option String} {c : ToolCall} {args : List (String × String)}
    (hA : ∀ m₀ nm u, allSeeded m₀ →
      (∀ out, runA m₀ nm u = .ok out → allSeeded out.manager) ∧
      runA m₀ nm u ≠ .error .messagesNotSet) :
    ∀ (tools : List Tool) (cur : List Msg) (m : ManagerSt) (log : List GenCall),
      allSeeded m →
      (∀ cur' m' log', processTools env runA ui c args tools cur m log =
        .ok (cur', m', log') → allSeeded m') ∧
      processTools env runA ui c args tools cur m log ≠ .error .messagesNotSet := by
  intro tools
  induction tools with
  | nil =>
    intro cur m log hm
    constructor
    · intro cur' m' log' h
      unfold processTools at h
      simp only [Except.ok.injEq, Prod.mk.injEq] at h
      exact h.2.1 ▸ hm
    · simp [processTools]
  | cons t rest ih =>
    intro cur m log hm
    by_cases hname : (t.name == c.function.name) = true
    · cases himpl : t.impl args with
      | scalar s =>
        constructor
        · intro cur' m' log' h
          unfold processTools at h
          rw [if_pos hname] at h
          simp only [himpl] at h
          exact (ih _ _ _ hm).1 _ _ _ h
        · unfold processTools
          rw [if_pos hname]
          simp only [himpl]
          exact (ih _ _ _ hm).2
      | agentRes a =>
        have hm₁ : allSeeded (add_agent m a) := allSeeded_add hm a
        have hAa := hA (add_agent m a) a.name ui hm₁
        cases hrun : runA (add_agent m a) a.name ui with
        | error e =>
          constructor
          · intro cur' m' log' h
            unfold processTools at h
            rw [if_pos hname] at h
            simp [himpl, hrun] at h
          · unfold processTools
            rw [if_pos hname]
            simp only [himpl, hrun]
            intro hc
            simp only [Except.error.injEq] at hc
            exact hAa.2 (hc ▸ hrun)
        | ok out =>
          have hout : allSeeded out.manager := hAa.1 out hrun
          cases hch : out.response.choices with
          | nil =>
            constructor
            · intro cur' m' log' h
              unfold processTools at h
              rw [if_pos hname] at h
              simp [himpl, hrun, hch] at h
            · unfold processTools
              rw [if_pos hname]
              simp only [himpl, hrun, hch]
              intro hc
              simp at hc
          | cons ch chs =>
            constructor
            · intro cur' m' log' h
              unfold processTools at h
              rw [if_pos hname] at h
              simp only [himpl, hrun, hch] at h
              exact (ih _ _ _ hout).1 _ _ _ h
            · unfold processTools
              rw [if_pos hname]
              simp only [himpl, hrun, hch]
              exact (ih _ _ _ hout).2
    · constructor
      · intro cur' m' log' h
        unfold processTools at h
        rw [if_neg hname] at h
        exact (ih _ _ _ hm).1 _ _ _ h
      · unfold processTools
        rw [if_neg hname]
        exact (ih _ _ _ hm).2

lemma processCalls_seeded {env : Env}
    {runA : ManagerSt → String → Option String → Except RunErr RunOut}
    {ui : Option String} {tools : List Tool}
    (hA : ∀ m₀ nm u, allSeeded m₀ →
      (∀ out, runA m₀ nm u = .ok out → allSeeded out.manager) ∧
      runA m₀ nm u ≠ .error .messagesNotSet) :
    ∀ (calls : List ToolCall) (cur : List Msg) (m : ManagerSt) (log : List GenCall),
      allSeeded m →
      (∀ cur' m' log', processCalls env runA ui tools calls cur m log =
        .ok (cur', m', log') → allSeeded m') ∧
      processCalls env runA ui tools calls cur m log ≠ .error .messagesNotSet := by
  intro calls
  induction calls with
  | nil =>
    intro cur m log hm
    constructor
    · intro cur' m' log' h
      unfold processCalls at h
      simp only [Except.ok.injEq, Prod.mk.injEq] at h
      exact h.2.1 ▸ hm
    · simp [processCalls]
  | cons c rest ih =>
    intro cur m log hm
    cases hargs : env.decode c.function.arguments with
    | none =>
      constructor
      · intro cur' m' log' h
        unfold processCalls at h
        simp [hargs] at h
      · unfold processCalls
        simp only [hargs]
        intro hc
        simp at hc
    | some args =>
      cases hpt : processTools env runA ui c args tools cur m log with
      | error e =>
        constructor
        · intro cur' m' log' h
          unfold processCalls at h
          simp [hargs, hpt] at h
        · unfold processCalls
          simp only [hargs, hpt]
          intro hc
          simp only [Except.error.injEq] at hc
          exact (processTools_seeded hA _ _ _ _ hm).2 (hc ▸ hpt)
      | ok res =>
        obtain ⟨cur₁, m₁, log₁⟩ := res
        have hm₁ : allSeeded m₁ := (processTools_seeded hA _ _ _ _ hm).1 _ _ _ hpt
        constructor
        · intro cur' m' log' h
          unfold processCalls at h
          simp only [hargs, hpt] at h
          exact (ih _ _ _ hm₁).1 _ _ _ h
        · unfold processCalls
          simp only [hargs, hpt]
          exact (ih _ _ _ hm₁).2

lemma run_agent_seeded (env : Env) :
    ∀ (fuel : Nat) (m : ManagerSt) (name : String) (ui : Option String),
      allSeeded m →
      (∀ out, run_agent env fuel m name ui = .ok out → allSeeded out.manager) ∧
      run_agent env fuel m name ui ≠ .error .messagesNotSet := by
  intro fuel
  induction fuel with
  | zero =>
    intro m name ui hm
    constructor
    · intro out h
      simp [run_agent] at h
    · simp [run_agent]
  | succ fuel ih =>
    intro m name ui hm
    have hA : ∀ m₀ nm u, allSeeded m₀ →
        (∀ out, run_agent env fuel m₀ nm u = .ok out → allSeeded out.manager) ∧
        run_agent env fuel m₀ nm u ≠ .error .messagesNotSet :=
      fun m₀ nm u hm₀ => ih m₀ nm u hm₀
    rw [run_agent_succ]
    unfold runAgentStep
    cases hidx : getAgentIdx m name with
    | none =>
      simp only [hidx]
      constructor
      · intro out h
        simp at h
      · intro hc
        simp at hc
    | some i =>
      simp only [hidx]
      have hm₁ : allSeeded (appendUserInput m i ui) := allSeeded_appendUserInput hm i ui
      cases hag : getAg (appendUserInput m i ui).agents i with
      | none =>
        simp only [hag]
        constructor
        · intro out h
          simp at h
        · intro hc
          simp at hc
      | some ag =>
        simp only [hag]
        have hsome : ag.model.messages.isSome := hm₁ ag (getAg_mem hag)
        cases hmsg : ag.model.messages with
        | none =>
          rw [hmsg] at hsome
          simp at hsome
        | some msgs =>
          simp only [hmsg]
          by_cases htc : (env.gen i msgs).tool_calls.isEmpty = true
          · rw [if_pos htc]
            constructor
            · intro out h
              cases h
              exact hm₁
            · intro hc
              simp at hc
          · rw [if_neg htc]
            cases hpc : processCalls env (run_agent env fuel) ui ag.spec.tools
                (env.gen i msgs).tool_calls
                (msgs ++ [Msg.assistantCalls ((env.gen i msgs).content.getD "")
                  (env.gen i msgs).tool_calls])
                (appendUserInput m i ui) [⟨i, msgs⟩] with
            | error e =>
              simp only [hpc]
              constructor
              · intro out h
                simp at h
              · intro hc
                simp only [Except.error.injEq] at hc
                exact (processCalls_seeded hA _ _ _ _ hm₁).2 (hc ▸ hpc)
            | ok res =>
              obtain ⟨cur', m₂, log₂⟩ := res
              simp only [hpc]
              have hm₂ : allSeeded m₂ := (processCalls_seeded hA _ _ _ _ hm₁).1 _ _ _ hpc
              have hkeep : keepsAgents (appendUserInput m i ui) m₂ :=
                processCalls_keeps
                  (fun m₀ nm u out₀ h₀ => run_agent_keeps env fuel m₀ nm u out₀ h₀)
                  _ _ _ _ _ _ _ hpc
              obtain ⟨a₂, ha₂, _⟩ := hkeep i ag hag
              rw [finishToolPass_eq env cur' log₂ ha₂]
              constructor
              · intro out h
                cases h
                exact allSeeded_setAgentMessages hm₂ i cur'
              · intro hc
                simp at hc

/-- C10: registration seeds the history and every evolution of the registry
performed by `run_agent` keeps every registered agent's history set, so the
messages-not-set precondition error of `get_response` is unreachable for a
run through the orchestrator on a registry of registered agents. -/
theorem c10_registered_always_seeded :
    (∀ (m : ManagerSt) (a : AgentV), allSeeded m → allSeeded (add_agent m a)) ∧
    (∀ (env : Env) (fuel : Nat) (m : ManagerSt) (name : String) (ui : Option String)
        (out : RunOut), allSeeded m → run_agent env fuel m name ui = .ok out →
        allSeeded out.manager) ∧
    (∀ (env : Env) (fuel : Nat) (m : ManagerSt) (name : String) (ui : Option String),
      allSeeded m → run_agent env fuel m name ui ≠ .error .messagesNotSet) :=
  ⟨fun _ a hm => allSeeded_add hm a,
   fun env fuel m name ui out hm hok => (run_agent_seeded env fuel m name ui hm).1 out hok,
   fun env fuel m name ui hm => (run_agent_seeded env fuel m name ui hm).2⟩

/-- Witness for C10 on the registered agent `a` of `cexMgrA`. -/
theorem c10_witness :
    allSeeded (add_agent cexMgrA agentW1) ∧
    (∃ out, run_agent cexEnvC 1 cexMgrA "a" none = .ok out ∧ allSeeded out.manager) ∧
    run_agent cexEnvC 1 cexMgrA "a" none ≠ .error .messagesNotSet :=
  ⟨c10_registered_always_seeded.1 cexMgrA agentW1
     (by intro ag hag; rw [List.mem_singleton.mp hag]; rfl),
   ⟨_, rfl, c10_registered_always_seeded.2.1 cexEnvC 1 cexMgrA "a" none _
     (by intro ag hag; rw [List.mem_singleton.mp hag]; rfl) rfl⟩,
   c10_registered_always_seeded.2.2 cexEnvC 1 cexMgrA "a" none
     (by intro ag hag; rw [List.mem_singleton.mp hag]; rfl)⟩

end AgentsManager
